import Mathlib

/-!
# Verification of the credtools statistical QC core

A shallow embedding of `src/credtools/qc.py` (the regularized-RSS noise
parameter estimator `estimate_s_rss`, the conditional z-score predictor
`kriging_rss`, the Dentist-S outlier statistic `compute_dentist_s`, and the
`locus_qc` orchestrator), together with theorems settling the frozen claims
about them.

Modelling conventions:

* Python/numpy floating-point values are modelled as exact rationals `ℚ`.
  `np.sqrt` is modelled by `ratSqrt` below, which agrees with the real square
  root on perfect squares (every concrete input used in a witness is chosen so
  that the square roots that matter are of perfect squares, or are multiplied
  by zero).
* numpy division by an exact zero yields `inf`/`nan`; wherever the source code
  immediately replaces such values (`dinv[np.isinf(dinv)] = 0`) the embedding
  performs the substitution directly.  For the Dentist-S statistic the
  `0/0 = nan` and `x/0 = ±inf` behaviour is load-bearing, so that computation
  is embedded with an explicit IEEE-style value type `FV`.
* External numerical routines that are either transcendental or iterative
  (`np.linalg.eigh`, `scipy.optimize.minimize_scalar` over log-likelihoods,
  `scipy.stats.chi2`, `scipy.optimize.curve_fit`) are modelled as fields of a
  `NumLib` parameter: fixed but arbitrary deterministic functions of exactly
  the data the source passes them.
* The `Locus` class and `intersect_sumstat_ld` live outside `src/`.  Modelled
  from the spec: §3/§6 state that a Locus reaches this core with summary
  statistics and LD matrix already variant-aligned, so a `Locus` here is an
  aligned record and `intersect_sumstat_ld`/`locus.copy()` are the identity.
* In-place mutation of a caller-supplied eigen-spectrum (claim C10) is made
  observable by state passing: `estimate_s_rss` and `kriging_rss` return the
  spectrum as it is left after the call, next to their result.
* Python exceptions (`ValueError`) are modelled with `Except String`.
-/

attribute [local semireducible] Rat.add Rat.mul Rat.inv Rat.sub Rat.ofScientific

namespace Credtools

/-- Floor square root of a natural number, defined structurally so that the
kernel can evaluate it on witnesses. -/
def natSqrt (n : ℕ) : ℕ :=
  ((List.range (n + 1)).takeWhile fun k => decide (k * k ≤ n)).length - 1

/-- Model of `np.sqrt` on rationals: exact on quotients of perfect squares
(a negative argument gives `nan` in numpy; it is mapped to `0` here and is
never reached by any claim). -/
def ratSqrt (q : ℚ) : ℚ :=
  if q.num < 0 then 0 else mkRat (natSqrt q.num.toNat) (natSqrt q.den)

/-- An IEEE-style float value: a finite rational, a signed infinity, or NaN.
Used where the source relies on `inf`/`nan` arithmetic (Dentist-S). -/
inductive FV where
  | num (q : ℚ)
  | pinf
  | ninf
  | nan
deriving DecidableEq, Repr

/-- IEEE division of finite values (denominators arising as exact `1 - r²`
carry sign `+0` when zero): `0/0 = nan`, `x/+0 = ±inf` by the sign of `x`,
otherwise exact. -/
def fdiv (a b : ℚ) : FV :=
  if b = 0 then (if a = 0 then .nan else if 0 < a then .pinf else .ninf)
  else .num (a / b)

/-- Elementwise `t < 0` as numpy evaluates it: comparisons with NaN are false,
`-inf < 0` is true. -/
def FV.isNeg : FV → Bool
  | .num q => decide (q < 0)
  | .ninf => true
  | _ => false

/-- The eigen-spectrum dictionary produced by `get_eigen`: the `eigvals` array
(ascending, as `np.linalg.eigh` returns them) and the `eigvecs` matrix. -/
@[ext]
structure Spectrum (p : ℕ) where
  eigvals : Fin p → ℚ
  eigvecs : Matrix (Fin p) (Fin p) ℚ

/-- Modelled from the spec: an aligned Locus (§3) — the variant ordering of
the summary statistics and the row/column ordering of the LD matrix `r`
coincide, alignment (`intersect_sumstat_ld`) being the responsibility of an
external collaborator (§6).  `af2` is the optional `AF2` column of the LD
reference map. -/
structure Locus (p : ℕ) where
  snpid : Fin p → String
  beta : Fin p → ℚ
  se : Fin p → ℚ
  pval : Fin p → ℚ
  eaf : Fin p → ℚ
  maf : Fin p → ℚ
  bp : Fin p → ℤ
  af2 : Option (Fin p → ℚ)
  r : Matrix (Fin p) (Fin p) ℚ
  sample_size : ℕ
  popu : String
  cohort : String

/-- External numerical routines, modelled as fixed deterministic functions of
exactly the data the source passes them (see the header comment). -/
structure NumLib where
  /-- `np.linalg.eigh`: the eigenvalue array (ascending). -/
  eigh_vals : (p : ℕ) → Matrix (Fin p) (Fin p) ℚ → (Fin p → ℚ)
  /-- `np.linalg.eigh`: the eigenvector matrix. -/
  eigh_vecs : (p : ℕ) → Matrix (Fin p) (Fin p) ℚ → Matrix (Fin p) (Fin p) ℚ
  /-- `minimize_scalar(negloglikelihood, bounds=(0,1), args=(ztv, eigvals))`
  of the "null-mle" branch: a function of `ztv` and the clamped eigenvalues. -/
  null_mle_s : (p : ℕ) → (Fin p → ℚ) → (Fin p → ℚ) → ℚ
  /-- `minimize_scalar(pseudolikelihood, bounds=(0,1), args=(z, eigvals,
  eigvecs))` of the "null-pseudomle" branch. -/
  null_pseudomle_s : (p : ℕ) → (Fin p → ℚ) → (Fin p → ℚ) → Matrix (Fin p) (Fin p) ℚ → ℚ
  /-- `scipy.stats.chi2.logsf(·, df=1)` applied to a possibly non-finite
  statistic. -/
  chi2_logsf : FV → FV
  /-- `scipy.stats.chi2.sf(Q, df)`. -/
  chi2_sf : ℚ → ℕ → ℚ
  /-- `curve_fit(fit_exp, xs, ys)[0][0]`: the fitted amplitude `a`. -/
  curve_fit_exp : List ℚ → List ℚ → ℚ

/-- `get_eigen(ldmatrix)`: eigendecomposition of the LD matrix, packaged as a
spectrum dictionary. -/
def get_eigen (lib : NumLib) {p : ℕ} (ldmatrix : Matrix (Fin p) (Fin p) ℚ) : Spectrum p :=
  ⟨lib.eigh_vals p ldmatrix, lib.eigh_vecs p ldmatrix⟩

/-- `z = (sumstats[BETA] / sumstats[SE]).to_numpy()` followed by
`np.where(np.isnan(z), 0, z)`.  Over `ℚ` a `0/0` already evaluates to `0`,
which is exactly the NaN-replacement; `x/0` with `x ≠ 0` (infinite in numpy,
and NOT replaced there) is not reached by any claim, all witnesses having
nonzero standard errors. -/
def zscores {p : ℕ} (locus : Locus p) : Fin p → ℚ := fun i => locus.beta i / locus.se i

/-- `sigma2 = (n - 1) / (z ** 2 + n - 2)`. -/
def sigma2 (n : ℕ) (z : ℚ) : ℚ := ((n : ℚ) - 1) / (z ^ 2 + (n : ℚ) - 2)

/-- `z = np.sqrt(sigma2) * z`: the variance-stabilizing transform applied in
both `estimate_s_rss` and `kriging_rss`. -/
def ztransform (n : ℕ) {p : ℕ} (z : Fin p → ℚ) : Fin p → ℚ :=
  fun i => ratSqrt (sigma2 n (z i)) * z i

/-- `eigvals[eigvals < r_tol] = 0`: the in-place eigenvalue clamp. -/
def clamp (r_tol : ℚ) {p : ℕ} (v : Fin p → ℚ) : Fin p → ℚ :=
  fun k => if v k < r_tol then 0 else v k

/-- `estimate_s_rss(locus, r_tol, method, eigvens)` (qc.py lines 57-181).
Returns the estimate (or the raised `ValueError`) together with the state of
the caller-supplied eigen-spectrum after the call: the function clamps the
shared `eigvals` array in place (line 123) before the sample-size check, so
the mutation survives even a raised error. -/
def estimate_s_rss (lib : NumLib) {p : ℕ} (locus : Locus p) (r_tol : ℚ) (method : String)
    (eigvens : Option (Spectrum p)) : Except String ℚ × Spectrum p :=
  let z0 := zscores locus
  let n := locus.sample_size
  let E := match eigvens with
    | some E => E
    | none => get_eigen lib locus.r
  let eigvals := clamp r_tol E.eigvals
  let E' : Spectrum p := ⟨eigvals, E.eigvecs⟩
  let res : Except String ℚ :=
    if n ≤ 1 then .error "n must be greater than 1"
    else
      let z := ztransform n z0
      if method = "null-mle" then
        let ztv : Fin p → ℚ := fun k => ∑ a, E.eigvecs a k * z a
        .ok (lib.null_mle_s p ztv eigvals)
      else if method = "null-partialmle" then
        let colspace := Finset.univ.filter fun k => 0 < eigvals k
        if colspace.card = p then .ok 0
        else
          let nullspace := Finset.univ.filter fun k => ¬ 0 < eigvals k
          .ok ((∑ k ∈ nullspace, (∑ a, E.eigvecs a k * z a) ^ 2) / (nullspace.card : ℚ))
      else if method = "null-pseudomle" then
        .ok (lib.null_pseudomle_s p z eigvals E.eigvecs)
      else .error "The method is not implemented"
  (res, E')

/-- `precision = eigvecs @ (eigvecs.T / ((1 - s) * eigvals + s))` inside
`pseudolikelihood` (qc.py line 162).  numpy broadcasts the `(p,)` denominator
along the LAST axis of the `(p,p)` array `eigvecs.T`, i.e. entry `[k, b]`
(which is `V[b, k]`) is divided by the denominator at the variant index `b`,
so the code computes `(V·Vᵀ)·diag(1/((1−s)λ+s))` — NOT the regularized
precision matrix `V·diag(1/((1−s)λ+s))·Vᵀ` of the spec (compare
`spec_reg_precision` below, and `kriging_rss`'s own correct
`eigvecs @ (eigvecs * dinv).T` at line 270, which scales by the component
index `k`). -/
def reg_precision (s : ℚ) {p : ℕ} (eigvals : Fin p → ℚ)
    (eigvecs : Matrix (Fin p) (Fin p) ℚ) : Matrix (Fin p) (Fin p) ℚ :=
  fun a b => ∑ k, eigvecs a k * (eigvecs b k / ((1 - s) * eigvals b + s))

/-- Spec-side definition (§4.2 "null-pseudomle", quoted by claim C2): the
regularized precision matrix `P = V diag(1/((1−s)λ+s)) Vᵗ` — the matrix the
susieR reference implementation builds (R recycles the vector down the
columns, dividing entry `[k, b]` by the component denominator `k`), and the
same object `kriging_rss` builds at line 270. -/
def spec_reg_precision (s : ℚ) {p : ℕ} (eigvals : Fin p → ℚ)
    (eigvecs : Matrix (Fin p) (Fin p) ℚ) : Matrix (Fin p) (Fin p) ℚ :=
  fun a b => ∑ k, eigvecs a k * (eigvecs b k / ((1 - s) * eigvals k + s))

/-- `postmean[i] = -(1 / precision[i, i]) * precision[i, :].dot(z) + z[i]`
inside `pseudolikelihood` (qc.py line 166). -/
def pseudo_postmean (s : ℚ) {p : ℕ} (eigvals : Fin p → ℚ)
    (eigvecs : Matrix (Fin p) (Fin p) ℚ) (z : Fin p → ℚ) (i : Fin p) : ℚ :=
  let precision := reg_precision s eigvals eigvecs;
  -(1 / precision i i) * (∑ j, precision i j * z j) + z i

/-- `postvar[i] = 1 / precision[i, i]` inside `pseudolikelihood` (line 167). -/
def pseudo_postvar (s : ℚ) {p : ℕ} (eigvals : Fin p → ℚ)
    (eigvecs : Matrix (Fin p) (Fin p) ℚ) (i : Fin p) : ℚ :=
  1 / reg_precision s eigvals eigvecs i i

/-- Spec-side definition (§4.2 "null-pseudomle", §4.3 step 5, quoted by claim
C2): the true leave-one-out conditional mean
`−(1/P[i,i])·Σ_{j≠i} P[i,j]·z[j]`, written independently of the source for
the refinement comparison. -/
def spec_loo_condmean {p : ℕ} (P : Matrix (Fin p) (Fin p) ℚ) (z : Fin p → ℚ) (i : Fin p) : ℚ :=
  -(1 / P i i) * ∑ j ∈ Finset.univ.erase i, P i j * z j

/-- The `pseudolikelihood` objective (qc.py line 168):
`-np.sum(stats.norm.logpdf(z, loc=postmean, scale=np.sqrt(postvar)))`, with
the normal log-density (transcendental) abstracted as a function `logpdf` of
the observation, the location and the scale. -/
def pseudolikelihood_obj (logpdf : ℚ → ℚ → ℚ → ℚ) (s : ℚ) {p : ℕ}
    (eigvals : Fin p → ℚ) (eigvecs : Matrix (Fin p) (Fin p) ℚ) (z : Fin p → ℚ) : ℚ :=
  -∑ i, logpdf (z i) (pseudo_postmean s eigvals eigvecs z i)
    (ratSqrt (pseudo_postvar s eigvals eigvecs i))

/-- Spec-side objective (§4.2 "null-pseudomle"): the negative sum of
per-variant Gaussian log-densities under the leave-one-out conditional means
and variances computed from the spec's regularized precision matrix. -/
def spec_loo_obj (logpdf : ℚ → ℚ → ℚ → ℚ) (s : ℚ) {p : ℕ}
    (eigvals : Fin p → ℚ) (eigvecs : Matrix (Fin p) (Fin p) ℚ) (z : Fin p → ℚ) : ℚ :=
  -∑ i, logpdf (z i) (spec_loo_condmean (spec_reg_precision s eigvals eigvecs) z i)
    (ratSqrt (1 / spec_reg_precision s eigvals eigvecs i i))

/-- The eigenvalues as `kriging_rss` sees them after `eigvals = eigvals[::-1]`
(a reversed view of the caller's array, qc.py line 257) followed by the clamp
`eigvals[eigvals < r_tol] = 0` (line 260). -/
def krig_eigvals (r_tol : ℚ) {p : ℕ} (E : Spectrum p) : Fin p → ℚ :=
  fun k => if E.eigvals k.rev < r_tol then 0 else E.eigvals k.rev

/-- The eigenvector matrix after `eigvecs = eigvecs[:, ::-1]` (line 258): a
reversed view, never written to. -/
def krig_eigvecs {p : ℕ} (E : Spectrum p) : Matrix (Fin p) (Fin p) ℚ :=
  fun a k => E.eigvecs a k.rev

/-- The caller's spectrum after `kriging_rss`'s own clamp: the write happens
through the reversed view, so entry `k` of the caller's array is entry
`k.rev` of the view.  The eigenvector array is only ever viewed, never
written. -/
def krig_spectrum_after (r_tol : ℚ) {p : ℕ} (E : Spectrum p) : Spectrum p :=
  ⟨fun k => krig_eigvals r_tol E k.rev, E.eigvecs⟩

/-- `dinv = 1 / ((1 - s) * eigvals + s)` with `dinv[np.isinf(dinv)] = 0`
(lines 268-269): an exactly-zero denominator gives `inf` in numpy and is
replaced by `0`. -/
def dinv_of (s : ℚ) (d : ℚ) : ℚ :=
  if (1 - s) * d + s = 0 then 0 else 1 / ((1 - s) * d + s)

/-- `np.max(z_std_diff ** 2)` (line 282).  numpy raises on an empty array
(`p = 0`); the embedding totalizes with default `0`, and every claim about
the grid assumes `0 < p`. -/
def max_zsd2 {p : ℕ} (zsd : Fin p → ℚ) : ℚ :=
  ((List.ofFn fun i => zsd i ^ 2).maximum).getD 0

/-- `a_max = 2 if np.max(z_std_diff**2) < 1 else 2 * np.sqrt(np.max(...))`. -/
def a_max_of {p : ℕ} (zsd : Fin p → ℚ) : ℚ :=
  if max_zsd2 zsd < 1 then 2 else 2 * ratSqrt (max_zsd2 zsd)

/-- `int(np.ceil(np.log2(a_max / a_min) / np.log2(1.05)))` with
`a_min = 0.8` (line 283): in exact arithmetic this is the least `n` with
`0.8 * 1.05 ^ n ≥ a_max`, computed here as a bounded search (the bound
`⌈25 a⌉ + 1` suffices by Bernoulli's inequality, see `le_npoint_bound`). -/
def npoint_raw (a_max : ℚ) : ℕ :=
  (((List.range (⌈(25 : ℚ) * a_max⌉₊ + 1)).find? fun nn =>
    decide (a_max ≤ (0.8 : ℚ) * (1.05 : ℚ) ^ nn)).getD 0)

/-- `a_grid = 1.05 ** np.arange(-npoint, 1) * a_max` after
`npoint = min(npoint, len(z) - 1)` (lines 285-286): the `npoint + 1` values
`1.05^(j - npoint) · a_max` for `j = 0, …, npoint`. -/
def a_grid_of (p : ℕ) (a_max : ℚ) : List ℚ :=
  let np0 := min (npoint_raw a_max) (p - 1)
  (List.range (np0 + 1)).map fun (j : ℕ) => (1.05 : ℚ) ^ ((j : ℤ) - (np0 : ℤ)) * a_max

/-- The columns of the `kriging_rss` result frame settled by the claims:
`SNPID`, transformed `z`, `condmean`, `condvar`, `z_std_diff`, plus the
mixture grid `a_grid` (claim C5).  The remaining column (`logLR`) comes from
the Gaussian-mixture outlier scorer: transcendental log-densities and a
stochastic EM fit (spec §4.4 documents that its determinism is not
guaranteed); no claim refers to it and it is not embedded. -/
structure KrigingResult (p : ℕ) where
  snpid : Fin p → String
  z : Fin p → ℚ
  condmean : Fin p → ℚ
  condvar : Fin p → ℚ
  z_std_diff : Fin p → ℚ
  a_grid : List ℚ

/-- The successful `kriging_rss` computation (lines 265-286): the transformed
z-scores, the precision matrix `P = V diag(dinv) Vᵗ` built from the reversed
clamped spectrum, the leave-one-out conditional means/variances, the
standardized differences and the scale grid. -/
def krig_result {p : ℕ} (locus : Locus p) (r_tol s : ℚ) (E : Spectrum p) : KrigingResult p :=
  let z := ztransform locus.sample_size (zscores locus)
  let d := krig_eigvals r_tol E
  let V := krig_eigvecs E
  let P : Matrix (Fin p) (Fin p) ℚ := fun a b => ∑ k, V a k * (V b k * dinv_of s (d k))
  let condmean : Fin p → ℚ := fun i =>
    -(1 / P i i) * (∑ j ∈ Finset.univ.filter fun j => j < i, P i j * z j)
      - (1 / P i i) * (∑ j ∈ Finset.univ.filter fun j => i < j, P i j * z j)
  let condvar : Fin p → ℚ := fun i => 1 / P i i
  let zsd : Fin p → ℚ := fun i => (z i - condmean i) / ratSqrt (condvar i)
  ⟨locus.snpid, z, condmean, condvar, zsd, a_grid_of p (a_max_of zsd)⟩

/-- The body of `kriging_rss` from the reversal of the spectrum on (lines
257-286), once `s` is available: clamp through the reversed view, check `n`,
and run the conditional-prediction computation. -/
def kriging_with {p : ℕ} (locus : Locus p) (r_tol s : ℚ) (E : Spectrum p) :
    Except String (KrigingResult p) × Spectrum p :=
  let E' := krig_spectrum_after r_tol E
  let res : Except String (KrigingResult p) :=
    if locus.sample_size ≤ 1 then .error "n must be greater than 1"
    else .ok (krig_result locus r_tol s E)
  (res, E')

/-- `kriging_rss(locus, r_tol, s, eigvens)` (qc.py lines 184-330, up to the
columns named by the claims).  When `s` is `None` the source first calls
`estimate_s_rss(locus, eigvens=...)` with that function's own defaults
(`r_tol = 1e-8`, `method = "null-mle"`), sharing the caller's arrays, so the
inner call clamps them in place before `kriging_rss` does; an error raised
there propagates before the reversal/clamp of lines 257-260 runs. -/
def kriging_rss (lib : NumLib) {p : ℕ} (locus : Locus p) (r_tol : ℚ) (s? : Option ℚ)
    (eigvens : Option (Spectrum p)) : Except String (KrigingResult p) × Spectrum p :=
  let E := match eigvens with
    | some E => E
    | none => get_eigen lib locus.r
  match s? with
  | none =>
    let est := estimate_s_rss lib locus (1 / 100000000) "null-mle" (some E)
    match est.1 with
    | .error e => (.error e, est.2)
    | .ok s => kriging_with locus r_tol s est.2
  | some s => kriging_with locus r_tol s E

/-- The `condmean` column of a `kriging_rss` result, `none` when the call
raised. -/
def krig_condmean? {p : ℕ} (r : Except String (KrigingResult p) × Spectrum p)
    (i : Fin p) : Option ℚ :=
  r.1.toOption.map fun res => res.condmean i

/-- The `condvar` column of a `kriging_rss` result, `none` when the call
raised. -/
def krig_condvar? {p : ℕ} (r : Except String (KrigingResult p) × Spectrum p)
    (i : Fin p) : Option ℚ :=
  r.1.toOption.map fun res => res.condvar i

/-- The `z_std_diff` column of a `kriging_rss` result (default `0` on a
raised call; used only under an `isOk` hypothesis). -/
def krig_zsd {p : ℕ} (r : Except String (KrigingResult p) × Spectrum p) : Fin p → ℚ :=
  match r.1 with
  | .ok res => res.z_std_diff
  | .error _ => fun _ => 0

/-- The `a_grid` of a `kriging_rss` result (default `[]` on a raised call). -/
def krig_grid {p : ℕ} (r : Except String (KrigingResult p) × Spectrum p) : List ℚ :=
  match r.1 with
  | .ok res => res.a_grid
  | .error _ => []

/-- One row of the `compute_dentist_s` result frame. -/
structure DentistRow where
  snpid : String
  t_dentist_s : FV
  p_dentist_s : FV
deriving DecidableEq, Repr

/-- The Dentist-S statistic of a single variant `j` against the lead variant
(qc.py lines 376-377): `t = (Z_j − r·Z_lead)² / (1 − r²)` followed by
`np.where(t < 0, inf, t)`.  For `r = ±1` the denominator is an exact `+0`:
equal numerator zero gives `0/0 = nan`, a positive numerator gives `+inf`;
a negative denominator (an `r² > 1` artifact) makes `t` negative, mapped to
`+inf` by the `where`. -/
def dentist_t {p : ℕ} (locus : Locus p) (lead j : Fin p) : FV :=
  let zj := locus.beta j / locus.se j
  let zlead := locus.beta lead / locus.se lead
  let r := locus.r lead j
  let t := fdiv ((zj - r * zlead) ^ 2) (1 - r ^ 2)
  if t.isNeg then .pinf else t

/-- `compute_dentist_s(locus)` (qc.py lines 333-384): the lead variant is the
first index attaining the minimal p-value (`idxmin`); its own statistic is
overwritten with NaN before the chi-squared log survival function is applied.
`idxmin` on an empty frame raises in pandas, modelled as the error case. -/
def compute_dentist_s (lib : NumLib) {p : ℕ} (locus : Locus p) :
    Except String (List DentistRow) :=
  match (List.finRange p).argmin locus.pval with
  | none => .error "attempt to get argmin of an empty sequence"
  | some lead =>
    .ok ((List.finRange p).map fun j =>
      let t := if j = lead then FV.nan else dentist_t locus lead j
      ⟨locus.snpid j, t, lib.chi2_logsf t⟩)

/-- `"{locus.popu}_{locus.cohort}"`: the cohort tag added to every per-locus
result table. -/
def cohort_label {p : ℕ} (locus : Locus p) : String := locus.popu ++ "_" ++ locus.cohort

/-- One row of the `compare_maf` result frame. -/
structure CompareMafRow where
  snpid : String
  maf_sumstats : ℚ
  maf_ld : ℚ
deriving DecidableEq, Repr

/-- `compare_maf(locus)` (qc.py lines 387-440): an empty frame when the LD
reference has no `AF2` column, else the sumstats MAF next to
`min(AF2, 1 - AF2)`. -/
def compare_maf {p : ℕ} (locus : Locus p) : List CompareMafRow :=
  match locus.af2 with
  | none => []
  | some af2 =>
    (List.finRange p).map fun i =>
      ⟨locus.snpid i, locus.maf i, min (af2 i) (1 - af2 i)⟩

/-- A locus of unknown size, as the heterogeneous members of a `LocusSet`. -/
structure BLocus where
  p : ℕ
  locus : Locus p

/-- The SNPID intersection across loci used by `ld_4th_moment` (qc.py lines
532-534); python keeps it as a set, used for membership only. -/
def overlap_snps (loci : List BLocus) : List String :=
  match loci with
  | [] => []
  | l₀ :: rest =>
    (List.ofFn l₀.locus.snpid).filter fun s =>
      rest.all fun l => (List.ofFn l.locus.snpid).contains s

/-- `ld_4th_moment(locus_set)` (qc.py lines 498-547): per cohort, for each
variant shared by every cohort, `Σ_j r_ij⁴ − 1` over the shared variants
(the locus is filtered to the overlap and re-intersected with its LD before
the column sums). -/
def ld_4th_moment (loci : List BLocus) : List (String × List (String × ℚ)) :=
  let overlap := overlap_snps loci
  loci.map fun l =>
    let keep := (List.finRange l.p).filter fun i => overlap.contains (l.locus.snpid i)
    (cohort_label l.locus,
      keep.map fun i => (l.locus.snpid i, (keep.map fun j => l.locus.r i j ^ 4).sum - 1))

/-- One row of the `ld_decay` result frame. -/
structure LdDecayRow where
  distance_kb : ℚ
  r2_avg : ℚ
  decay_rate : ℚ
  cohort : String
deriving DecidableEq, Repr

/-- `ld_decay` for one locus (qc.py lines 594-620): pairwise distances on the
strict lower triangle, squared correlations, 1kb histogram bins
(`np.arange(0, maxBP - minBP + 1000, 1000)`, all bins half-open except the
last), bin-averaged r², and the exponential fit amplitude from `curve_fit`
(modelled through `NumLib`; scipy would raise when the bins give it fewer
points than parameters, which no witness exercises). -/
def ld_decay_locus (lib : NumLib) {p : ℕ} (locus : Locus p) : List LdDecayRow :=
  let pairs : List (ℤ × ℚ) :=
    (List.finRange p).flatMap fun i =>
      ((List.finRange p).filter fun j => j < i).map fun j =>
        (|locus.bp i - locus.bp j|, locus.r i j ^ 2)
  let bpvals := List.ofFn locus.bp
  let M := bpvals.maximum.getD 0 - bpvals.minimum.getD 0
  let nbins := ((M + 1000 + 999) / 1000).toNat
  let nb := nbins - 1
  let avgs := (List.range nb).map fun k =>
    let lo := (k : ℤ) * 1000
    let hi := ((k : ℤ) + 1) * 1000
    let lastBin := k = nb - 1
    let sel := pairs.filter fun dv =>
      decide (lo ≤ dv.1) && (decide (dv.1 < hi) || (lastBin && decide (dv.1 = hi)))
    if 0 < sel.length then (sel.map Prod.snd).sum / (sel.length : ℚ) else 0
  let xs := (List.range nb).map fun k => (k : ℚ) + 1
  let a := lib.curve_fit_exp xs avgs
  (List.range nb).map fun (k : ℕ) => ⟨(k : ℚ) + 1, avgs.getD k 0, a, cohort_label locus⟩

/-- One row of the `cochran_q` result frame. -/
structure CochranRow where
  snpid : String
  q : ℚ
  q_pvalue : ℚ
  i_squared : ℚ
deriving DecidableEq, Repr

/-- The `(1/SE², BETA)` of the variant `s` in a locus, when present. -/
def snp_weight_effect {p : ℕ} (locus : Locus p) (s : String) : Option (ℚ × ℚ) :=
  ((List.finRange p).find? fun i => locus.snpid i == s).map fun i =>
    (1 / locus.se i ^ 2, locus.beta i)

/-- `cochran_q(locus_set)` (qc.py lines 624-719): variants are the inner join
of every cohort (seeded by the first locus's rows, order preserved from it);
per variant the inverse-variance weighted mean effect, the Q statistic, its
chi-squared p-value (`NumLib`) and `I² = max(0, (Q − df)/Q · 100)` (at an
exact `Q = 0` numpy produces NaN under an ignored-invalid state; the `ℚ`
division convention gives `0` there — no claim touches that value). -/
def cochran_q (lib : NumLib) (loci : List BLocus) : List CochranRow :=
  match loci with
  | [] => []
  | l₀ :: _ =>
    let merged := (List.ofFn l₀.locus.snpid).filter fun s =>
      loci.all fun l => (snp_weight_effect l.locus s).isSome
    let k := loci.length
    merged.map fun s =>
      let ws := loci.map fun l => (snp_weight_effect l.locus s).getD (0, 0)
      let sumw := (ws.map Prod.fst).sum
      let wmean := (ws.map fun wb => wb.1 * wb.2).sum / sumw
      let q := (ws.map fun wb => wb.1 * (wb.2 - wmean) ^ 2).sum
      let df := k - 1
      ⟨s, q, lib.chi2_sf q df, max 0 ((q - (df : ℚ)) / q * 100)⟩

/-- `snp_missingness(locus_set)` (qc.py lines 443-495): the union of variants
across cohorts with a 1/0 presence indicator per cohort (pandas may order the
union index differently; only key presence is claimed). -/
def snp_missingness (loci : List BLocus) : List (String × List (String × ℚ)) :=
  let allsnps := (loci.flatMap fun l => List.ofFn l.locus.snpid).dedup
  allsnps.map fun s =>
    (s, loci.map fun l =>
      (cohort_label l.locus, if (List.ofFn l.locus.snpid).contains s then (1 : ℚ) else 0))

/-- One row of the `expected_z` table assembled by `locus_qc`: the
`kriging_rss` columns plus `lambda_s` and the cohort tag. -/
structure ExpectedZRow where
  snpid : String
  z : ℚ
  condmean : ℚ
  condvar : ℚ
  z_std_diff : ℚ
  lambda_s : ℚ
  cohort : String

/-- A `dentist_s` row with its cohort tag. -/
structure DentistQCRow where
  snpid : String
  t_dentist_s : FV
  p_dentist_s : FV
  cohort : String
deriving DecidableEq, Repr

/-- A `compare_maf` row with its cohort tag. -/
structure CompareMafQCRow where
  snpid : String
  maf_sumstats : ℚ
  maf_ld : ℚ
  cohort : String
deriving DecidableEq, Repr

/-- The value of one entry of the `locus_qc` result dictionary. -/
inductive QCTable where
  | expectedZ (rows : List ExpectedZRow)
  | dentistS (rows : List DentistQCRow)
  | compareMaf (rows : List CompareMafQCRow)
  | ld4thMoment (cols : List (String × List (String × ℚ)))
  | ldDecay (rows : List LdDecayRow)
  | cochranQ (rows : List CochranRow)
  | snpMissingness (rows : List (String × List (String × ℚ)))

/-- The per-locus loop body of `locus_qc` (qc.py lines 778-791): a fresh
eigendecomposition, `lambda_s` from `estimate_s_rss` (which clamps the shared
spectrum in place), `kriging_rss` on the mutated spectrum with the
precomputed `lambda_s`, then the Dentist-S and MAF tables, all cohort-tagged.
A raised error propagates out of `locus_qc`. -/
def locus_qc_locus (lib : NumLib) (r_tol : ℚ) (method : String) (l : BLocus) :
    Except String (List ExpectedZRow × List DentistQCRow × List CompareMafQCRow) := do
  let eigens := get_eigen lib l.locus.r
  let est := estimate_s_rss lib l.locus r_tol method (some eigens)
  let lambda_s ← est.1
  let kr := kriging_rss lib l.locus r_tol (some lambda_s) (some est.2)
  let res ← kr.1
  let label := cohort_label l.locus
  let ez := (List.finRange l.p).map fun i =>
    ({ snpid := res.snpid i, z := res.z i, condmean := res.condmean i,
       condvar := res.condvar i, z_std_diff := res.z_std_diff i,
       lambda_s := lambda_s, cohort := label } : ExpectedZRow)
  let ds ← compute_dentist_s lib l.locus
  let dsr := ds.map fun row =>
    ({ snpid := row.snpid, t_dentist_s := row.t_dentist_s,
       p_dentist_s := row.p_dentist_s, cohort := label } : DentistQCRow)
  let cm := (compare_maf l.locus).map fun row =>
    ({ snpid := row.snpid, maf_sumstats := row.maf_sumstats,
       maf_ld := row.maf_ld, cohort := label } : CompareMafQCRow)
  pure (ez, dsr, cm)

/-- `locus_qc(locus_set, r_tol, method)` (qc.py lines 722-811): the five per-locus
tables are always assembled; the heterogeneity (`cochran_q`) and missingness
tables are added exactly when the set holds more than one locus.  An empty
set raises in `pd.concat` ("No objects to concatenate"). -/
def locus_qc (lib : NumLib) (loci : List BLocus) (r_tol : ℚ) (method : String) :
    Except String (List (String × QCTable)) :=
  match loci with
  | [] => .error "No objects to concatenate"
  | _ :: _ => do
    let per ← loci.mapM (locus_qc_locus lib r_tol method)
    let ez := (per.map fun t => t.1).flatten
    let ds := (per.map fun t => t.2.1).flatten
    let cm := (per.map fun t => t.2.2).flatten
    pure
      ([("expected_z", QCTable.expectedZ ez),
        ("dentist_s", QCTable.dentistS ds),
        ("compare_maf", QCTable.compareMaf cm),
        ("ld_4th_moment", QCTable.ld4thMoment (ld_4th_moment loci)),
        ("ld_decay", QCTable.ldDecay ((loci.map fun l => ld_decay_locus lib l.locus).flatten))]
        ++ if 1 < loci.length then
            [("cochran_q", QCTable.cochranQ (cochran_q lib loci)),
             ("snp_missingness", QCTable.snpMissingness (snp_missingness loci))]
          else [])

/-- The keys of the `locus_qc` result dictionary (empty on a raised error). -/
def qc_keys (r : Except String (List (String × QCTable))) : List String :=
  match r with
  | .ok t => t.map Prod.fst
  | .error _ => []

/-! ## Concrete instances used by witnesses and counterexamples -/

/-- A concrete `NumLib` for witnesses: every external routine is a fixed
simple function (the claims hold for every `NumLib`, so any instance
witnesses them). -/
def testLib : NumLib where
  eigh_vals := fun _ _ => fun _ => 1
  eigh_vecs := fun _ _ => fun i j => if i = j then 1 else 0
  null_mle_s := fun _ _ _ => 0
  null_pseudomle_s := fun _ _ _ _ => 0
  chi2_logsf := fun _ => FV.nan
  chi2_sf := fun _ _ => 1
  curve_fit_exp := fun _ _ => 0

/-- A `NumLib` whose bounded s-search result genuinely depends on the
eigenvalue array it receives — as the real Brent search over the
negative log-likelihood does, since the objective reads every eigenvalue.
Used to exhibit the C8 failure when the caller's tolerance exceeds the inner
estimation default. -/
def sensLib : NumLib :=
  { testLib with
    null_mle_s := fun _ _ eigvals => if (List.ofFn eigvals).sum = 0 then 1 / 2 else 1 / 4 }

/-- A two-variant locus (`n = 3`, `β/σ = (2, 2)`). -/
def locusA : Locus 2 where
  snpid := !["rs1", "rs2"]
  beta := ![2, 2]
  se := ![1, 1]
  pval := ![1/100, 2/100]
  eaf := ![1/2, 1/2]
  maf := ![1/2, 1/2]
  bp := ![100, 1600]
  af2 := none
  r := !![1, 0; 0, 1]
  sample_size := 3
  popu := "EUR"
  cohort := "COH"

/-- `locusA` with only the first beta/se ratio changed (`β/σ = (9, 2)`). -/
def locusA' : Locus 2 where
  snpid := !["rs1", "rs2"]
  beta := ![9, 2]
  se := ![1, 1]
  pval := ![1/100, 2/100]
  eaf := ![1/2, 1/2]
  maf := ![1/2, 1/2]
  bp := ![100, 1600]
  af2 := none
  r := !![1, 0; 0, 1]
  sample_size := 3
  popu := "EUR"
  cohort := "COH"

/-- The identity spectrum on two variants. -/
def specA : Spectrum 2 := ⟨![1, 1], !![1, 0; 0, 1]⟩

/-- A single-variant locus with `β/σ = 1` and `n = 2` (so the transformed
z-score is exactly `1`). -/
def locusB : Locus 1 where
  snpid := !["rs1"]
  beta := ![1]
  se := ![1]
  pval := ![1/100]
  eaf := ![1/2]
  maf := ![1/2]
  bp := ![100]
  af2 := none
  r := !![1]
  sample_size := 2
  popu := "EUR"
  cohort := "COH"

/-- A fully degenerate one-variant spectrum (eigenvalue `0`). -/
def specB : Spectrum 1 := ⟨![0], !![1]⟩

/-- A single-variant locus with `β/σ = 0` and `n = 3`. -/
def locusC : Locus 1 where
  snpid := !["rs1"]
  beta := ![0]
  se := ![1]
  pval := ![1/100]
  eaf := ![1/2]
  maf := ![1/2]
  bp := ![100]
  af2 := none
  r := !![1]
  sample_size := 3
  popu := "EUR"
  cohort := "COH"

/-- The trivial one-variant spectrum (eigenvalue `1`). -/
def specC : Spectrum 1 := ⟨![1], !![1]⟩

/-- `locusC` with sample size `1` (the `InvalidSampleSize` boundary). -/
def locusN1 : Locus 1 where
  snpid := !["rs1"]
  beta := ![0]
  se := ![1]
  pval := ![1/100]
  eaf := ![1/2]
  maf := ![1/2]
  bp := ![100]
  af2 := none
  r := !![1]
  sample_size := 1
  popu := "EUR"
  cohort := "COH"

/-- A one-variant spectrum whose eigenvalue `10⁻⁶` sits between the inner
default tolerance `10⁻⁸` and a caller tolerance `10⁻³`. -/
def specSmall : Spectrum 1 := ⟨![1/1000000], !![1]⟩

/-- A two-variant locus whose second variant is perfectly correlated with the
lead variant (`r = 1`) and carries the same z-score (`β/σ = 2` for both, lead
is the first variant by minimal p-value). -/
def locusDup : Locus 2 where
  snpid := !["rs1", "rs2"]
  beta := ![2, 2]
  se := ![1, 1]
  pval := ![1/100, 2/100]
  eaf := ![1/2, 1/2]
  maf := ![1/2, 1/2]
  bp := ![100, 200]
  af2 := none
  r := !![1, 1; 1, 1]
  sample_size := 1000
  popu := "EUR"
  cohort := "COH"

/-- A two-variant locus with lead z-score `2`, `r = 1/2` to the second
variant, and second z-score exactly `r · z_lead = 1`. -/
def locusHalf : Locus 2 where
  snpid := !["rs1", "rs2"]
  beta := ![2, 1]
  se := ![1, 1]
  pval := ![1/100, 2/100]
  eaf := ![1/2, 1/2]
  maf := ![1/2, 1/2]
  bp := ![100, 200]
  af2 := none
  r := !![1, 1/2; 1/2, 1]
  sample_size := 1000
  popu := "EUR"
  cohort := "COH"

/-! ## Helper lemmas -/

/-- Clamping at a tolerance `r_tol ≤ t` changes nothing on an array already
clamped at `t`: the surviving entries are `≥ t ≥ r_tol` and the zeroed ones
stay zero. -/
theorem clamp_clamp {p : ℕ} {r_tol t : ℚ} (h : r_tol ≤ t) (v : Fin p → ℚ) :
    clamp r_tol (clamp t v) = clamp t v := by
  funext k
  unfold clamp
  by_cases hk : v k < t
  · simp [hk]
  · have hk' : ¬ v k < r_tol := fun hlt => hk (lt_of_lt_of_le hlt h)
    simp [hk, hk']

/-- The eigenvalue clamp is idempotent. -/
theorem clamp_idem {p : ℕ} (t : ℚ) (v : Fin p → ℚ) :
    clamp t (clamp t v) = clamp t v :=
  clamp_clamp le_rfl v

/-- Writing the clamp through the reversed view leaves the caller's array
pointwise clamped. -/
theorem krig_spectrum_after_eigvals {p : ℕ} (r_tol : ℚ) (E : Spectrum p) :
    (krig_spectrum_after r_tol E).eigvals = clamp r_tol E.eigvals := by
  funext k
  simp [krig_spectrum_after, krig_eigvals, clamp, Fin.rev_rev]

/-- The kriging-side view of the eigenvalues is the pointwise clamp read
through the reversal. -/
theorem krig_eigvals_eq {p : ℕ} (r_tol : ℚ) (E : Spectrum p) :
    krig_eigvals r_tol E = fun k => clamp r_tol E.eigvals k.rev := rfl

/-- `kriging_with` depends on the spectrum only through the clamped
eigenvalues and the eigenvectors. -/
theorem kriging_with_congr {p : ℕ} (locus : Locus p) (r_tol s : ℚ) {E F : Spectrum p}
    (h1 : clamp r_tol E.eigvals = clamp r_tol F.eigvals) (h2 : E.eigvecs = F.eigvecs) :
    kriging_with locus r_tol s E = kriging_with locus r_tol s F := by
  have hkv : krig_eigvals r_tol E = krig_eigvals r_tol F := by
    funext k
    rw [krig_eigvals_eq, krig_eigvals_eq, h1]
  have hvec : krig_eigvecs E = krig_eigvecs F := by
    funext a k
    simp [krig_eigvecs, h2]
  have hafter : krig_spectrum_after r_tol E = krig_spectrum_after r_tol F := by
    unfold krig_spectrum_after
    rw [hkv, h2]
  have hres : krig_result locus r_tol s E = krig_result locus r_tol s F := by
    unfold krig_result
    rw [hkv, hvec]
  unfold kriging_with
  rw [hres, hafter]

/-- The spectrum returned by `estimate_s_rss` on a supplied spectrum is the
pointwise clamp. -/
theorem estimate_s_rss_snd (lib : NumLib) {p : ℕ} (locus : Locus p) (r_tol : ℚ)
    (method : String) (E : Spectrum p) :
    (estimate_s_rss lib locus r_tol method (some E)).2 =
      ⟨clamp r_tol E.eigvals, E.eigvecs⟩ := rfl

/-- The spectrum returned by `kriging_with` is the view-write clamp. -/
theorem kriging_with_snd {p : ℕ} (locus : Locus p) (r_tol s : ℚ) (E : Spectrum p) :
    (kriging_with locus r_tol s E).2 = krig_spectrum_after r_tol E := rfl

/-- An entry below the outer tolerance is zero after two successive clamps,
whatever the inner tolerance did to it. -/
theorem clamp_clamp_eq_zero {r_tol t : ℚ} {p : ℕ} (v : Fin p → ℚ) (k : Fin p)
    (hk : v k < r_tol) : clamp r_tol (clamp t v) k = 0 := by
  unfold clamp
  by_cases ht : v k < t
  · rw [if_pos ht]
    exact ite_self 0
  · rw [if_neg ht]
    exact if_pos hk

/-! ## The claims -/

/-- Auxiliary to C2: the pointwise cancellation — the conditional mean
`-(1/P[i,i])·(P[i,:]·z) + z[i]` computed inside `pseudolikelihood` equals the
leave-one-out form `-(1/P[i,i])·Σ_{j≠i} P[i,j]·z[j]` OF THE SAME MATRIX `P`
the code builds, whenever the diagonal entry is nonzero: the cancellation
itself is sound algebra; the bug (claim C2) is in which matrix the code
builds. -/
theorem pseudo_postmean_eq_loo {p : ℕ} (s : ℚ) (eigvals : Fin p → ℚ)
    (eigvecs : Matrix (Fin p) (Fin p) ℚ) (z : Fin p → ℚ) (i : Fin p)
    (h : reg_precision s eigvals eigvecs i i ≠ 0) :
    pseudo_postmean s eigvals eigvecs z i =
      spec_loo_condmean (reg_precision s eigvals eigvecs) z i := by
  simp only [pseudo_postmean, spec_loo_condmean]
  set P := reg_precision s eigvals eigvecs with hP
  rw [show (∑ j, P i j * z j) = P i i * z i + ∑ j ∈ Finset.univ.erase i, P i j * z j from
    (Finset.add_sum_erase Finset.univ (fun j => P i j * z j) (Finset.mem_univ i)).symm]
  have hc : 1 / P i i * P i i = 1 := one_div_mul_cancel h
  calc -(1 / P i i) * (P i i * z i + ∑ j ∈ Finset.univ.erase i, P i j * z j) + z i
      = -(1 / P i i * P i i) * z i + z i
          + -(1 / P i i) * ∑ j ∈ Finset.univ.erase i, P i j * z j := by ring
    _ = -(1 / P i i) * ∑ j ∈ Finset.univ.erase i, P i j * z j := by rw [hc]; ring

/-- C2 (code bug): `pseudolikelihood` line 162 builds
`eigvecs @ (eigvecs.T / ((1-s)*eigvals + s))`, and numpy broadcasts the `(p,)`
denominator along the last axis of `eigvecs.T`, giving `(V·Vᵀ)·diag(1/w)` —
not the spec's regularized precision matrix `V·diag(1/w)·Vᵀ` (which the
susieR reference and `kriging_rss`'s own `eigvecs @ (eigvecs * dinv).T`,
line 270, compute).  At `s = 0`, eigenvalues `(1, 3)`, the exactly orthogonal
eigenvector matrix `[[3/5, 4/5], [4/5, −3/5]]` and `z = (1, 2)`: the two
matrices already differ at `[0,0]` (`1` versus `43/75`), the code's
conditional mean at variant `0` (`0`) differs from the spec's leave-one-out
conditional mean there (`−48/43`), and the objectives differ under the
location-reading density abstraction — so the claimed equivalence with the
spec's LOO pseudolikelihood fails on the code. -/
theorem c2_pseudolikelihood_broadcast_bug :
    reg_precision 0 ![(1 : ℚ), 3] !![3/5, 4/5; 4/5, -3/5] 0 0 ≠
      spec_reg_precision 0 ![(1 : ℚ), 3] !![3/5, 4/5; 4/5, -3/5] 0 0
    ∧ pseudo_postmean 0 ![(1 : ℚ), 3] !![3/5, 4/5; 4/5, -3/5] ![1, 2] 0 ≠
      spec_loo_condmean (spec_reg_precision 0 ![(1 : ℚ), 3] !![3/5, 4/5; 4/5, -3/5]) ![1, 2] 0
    ∧ pseudolikelihood_obj (fun _ m _ => m) 0 ![(1 : ℚ), 3] !![3/5, 4/5; 4/5, -3/5] ![1, 2] ≠
      spec_loo_obj (fun _ m _ => m) 0 ![(1 : ℚ), 3] !![3/5, 4/5; 4/5, -3/5] ![1, 2] :=
  ⟨by decide, by decide, by decide⟩

/-- C3: with `method = "null-partialmle"`, a locus whose LD matrix is full
rank after clamping (every clamped eigenvalue strictly positive, so the
column-space count equals the variant count) gets exactly `s = 0`. -/
theorem c3_partialmle_full_rank (lib : NumLib) {p : ℕ} (locus : Locus p) (r_tol : ℚ)
    (E : Spectrum p) (hn : 1 < locus.sample_size)
    (hfull : ∀ k, 0 < clamp r_tol E.eigvals k) :
    (estimate_s_rss lib locus r_tol "null-partialmle" (some E)).1 = .ok 0 := by
  have hcard : (Finset.univ.filter fun k => 0 < clamp r_tol E.eigvals k).card = p := by
    rw [Finset.filter_true_of_mem fun k _ => hfull k, Finset.card_univ, Fintype.card_fin]
  simp only [estimate_s_rss, reduceIte]
  rw [if_neg (by omega : ¬ locus.sample_size ≤ 1),
    if_neg (show ¬ (("null-partialmle" : String) = "null-mle") by decide), if_pos hcard]

/-- Witness for C3: one variant, eigenvalue `1`, tolerance `10⁻⁸`, `n = 3`. -/
theorem c3_witness :
    1 < locusC.sample_size ∧ (∀ k, 0 < clamp (1 / 100000000) specC.eigvals k) ∧
      (estimate_s_rss testLib locusC (1 / 100000000) "null-partialmle" (some specC)).1 = .ok 0 :=
  ⟨by decide, by decide,
    c3_partialmle_full_rank testLib locusC (1 / 100000000) specC (by decide) (by decide)⟩

/-- C4 (amended): when every eigenvalue clamps to zero, "null-partialmle"
does run gracefully (no error), but it returns the mean squared projection of
the transformed z-scores onto the (now full) null space — not `0` in
general. -/
theorem c4_partialmle_degenerate (lib : NumLib) {p : ℕ} (locus : Locus p) (r_tol : ℚ)
    (E : Spectrum p) (hp : 0 < p) (hn : 1 < locus.sample_size)
    (hdeg : ∀ k, E.eigvals k < r_tol) :
    (estimate_s_rss lib locus r_tol "null-partialmle" (some E)).1 =
      .ok ((∑ k, (∑ a, E.eigvecs a k * ztransform locus.sample_size (zscores locus) a) ^ 2)
        / (p : ℚ)) := by
  have hcl : clamp r_tol E.eigvals = fun _ => 0 := funext fun k => if_pos (hdeg k)
  have hcol : (Finset.univ.filter fun k => 0 < clamp r_tol E.eigvals k).card = 0 := by
    rw [hcl]
    simp
  have hnull : (Finset.univ.filter fun k => ¬ 0 < clamp r_tol E.eigvals k) = Finset.univ := by
    rw [hcl]
    simp
  simp only [estimate_s_rss, reduceIte]
  rw [if_neg (by omega : ¬ locus.sample_size ≤ 1),
    if_neg (show ¬ (("null-partialmle" : String) = "null-mle") by decide),
    if_neg (by omega : ¬ _ = p), hnull]
  rw [Finset.card_univ, Fintype.card_fin]

/-- Counterexample for C4 as stated: the degenerate one-variant locus
`locusB` (eigenvalue `0`, `β/σ = 1`, `n = 2`) returns `s = 1`, not `s = 0`. -/
theorem c4_counterexample :
    (estimate_s_rss testLib locusB (1 / 100000000) "null-partialmle" (some specB)).1.toOption
      = some 1 ∧ (1 : ℚ) ≠ 0 :=
  ⟨by decide, by decide⟩

/-- Witness for C4 (amended) at the same degenerate input. -/
theorem c4_witness :
    0 < 1 ∧ 1 < locusB.sample_size ∧ (∀ k, specB.eigvals k < (1 / 100000000 : ℚ)) ∧
      (estimate_s_rss testLib locusB (1 / 100000000) "null-partialmle" (some specB)).1 =
        .ok ((∑ k, (∑ a, specB.eigvecs a k * ztransform locusB.sample_size (zscores locusB) a) ^ 2)
          / ((1 : ℕ) : ℚ)) :=
  ⟨by decide, by decide, by decide,
    c4_partialmle_degenerate testLib locusB (1 / 100000000) specB (by decide) (by decide)
      (by decide)⟩

/-- C7: a sample size `≤ 1` makes both `estimate_s_rss` and `kriging_rss`
raise the `InvalidSampleSize` `ValueError` ("n must be greater than 1") and
produce no result — in `kriging_rss` either through its own check or, when
`s` is to be estimated, through the inner `estimate_s_rss` call. -/
theorem c7_invalid_sample_size (lib : NumLib) {p : ℕ} (locus : Locus p) (r_tol : ℚ)
    (method : String) (s? : Option ℚ) (eigvens : Option (Spectrum p))
    (hn : locus.sample_size ≤ 1) :
    (estimate_s_rss lib locus r_tol method eigvens).1 = .error "n must be greater than 1"
    ∧ (kriging_rss lib locus r_tol s? eigvens).1 = .error "n must be greater than 1" := by
  have hest : ∀ (rt : ℚ) (m : String) (ev : Option (Spectrum p)),
      (estimate_s_rss lib locus rt m ev).1 = .error "n must be greater than 1" := by
    intro rt m ev
    simp only [estimate_s_rss]
    rw [if_pos hn]
  refine ⟨hest _ _ _, ?_⟩
  cases s? with
  | some s =>
    simp only [kriging_rss, kriging_with]
    rw [if_pos hn]
  | none =>
    simp only [kriging_rss, hest]

/-- Witness for C7: the one-variant locus with `sample_size = 1`. -/
theorem c7_witness :
    locusN1.sample_size ≤ 1 ∧
      ((estimate_s_rss testLib locusN1 (1 / 1000) "null-mle" (some specC)).1
          = .error "n must be greater than 1"
        ∧ (kriging_rss testLib locusN1 (1 / 1000) none (some specC)).1
          = .error "n must be greater than 1") :=
  ⟨by decide, c7_invalid_sample_size testLib locusN1 (1 / 1000) "null-mle" none (some specC)
    (by decide)⟩

/-- C10: both functions mutate a caller-supplied eigenvalue array in place.
`estimate_s_rss` leaves it exactly pointwise clamped at `r_tol`;
`kriging_rss` (whose write goes through a reversed view, and which on
`s = None` first lets the inner `estimate_s_rss` clamp at its own default
`10⁻⁸`) leaves every entry that was below `r_tol` at exactly zero.  The
eigenvector matrix is never written. -/
theorem c10_spectrum_mutated_in_place (lib : NumLib) {p : ℕ} (locus : Locus p)
    (r_tol : ℚ) (method : String) (s? : Option ℚ) (E : Spectrum p)
    (hn : 1 < locus.sample_size) :
    ((estimate_s_rss lib locus r_tol method (some E)).2.eigvals = clamp r_tol E.eigvals
      ∧ (estimate_s_rss lib locus r_tol method (some E)).2.eigvecs = E.eigvecs)
    ∧ ((∀ k, E.eigvals k < r_tol → (kriging_rss lib locus r_tol s? (some E)).2.eigvals k = 0)
      ∧ (kriging_rss lib locus r_tol s? (some E)).2.eigvecs = E.eigvecs) := by
  refine ⟨⟨rfl, rfl⟩, ?_⟩
  cases s? with
  | some s =>
    constructor
    · intro k hk
      show (kriging_with locus r_tol s E).2.eigvals k = 0
      rw [kriging_with_snd, krig_spectrum_after_eigvals]
      exact if_pos hk
    · rfl
  | none =>
    have hres : (estimate_s_rss lib locus (1 / 100000000) "null-mle" (some E)).1 =
        .ok (lib.null_mle_s p
          (fun k => ∑ a, E.eigvecs a k * ztransform locus.sample_size (zscores locus) a)
          (clamp (1 / 100000000) E.eigvals)) := by
      simp only [estimate_s_rss, reduceIte]
      rw [if_neg (by omega : ¬ locus.sample_size ≤ 1)]
    constructor
    · intro k hk
      simp only [kriging_rss, hres, estimate_s_rss_snd, kriging_with_snd]
      rw [krig_spectrum_after_eigvals]
      show clamp r_tol (clamp (1 / 100000000) E.eigvals) k = 0
      exact clamp_clamp_eq_zero E.eigvals k hk
    · simp only [kriging_rss, hres, estimate_s_rss_snd, kriging_with_snd]
      rfl

/-- Witness for C10: eigenvalue `10⁻⁶` under tolerance `10⁻³` is zeroed by
both calls; the eigenvectors survive. -/
theorem c10_witness :
    1 < locusC.sample_size ∧
      (((estimate_s_rss testLib locusC (1 / 1000) "null-mle" (some specSmall)).2.eigvals
            = clamp (1 / 1000) specSmall.eigvals
          ∧ (estimate_s_rss testLib locusC (1 / 1000) "null-mle" (some specSmall)).2.eigvecs
            = specSmall.eigvecs)
        ∧ ((∀ k, specSmall.eigvals k < 1 / 1000 →
              (kriging_rss testLib locusC (1 / 1000) none (some specSmall)).2.eigvals k = 0)
          ∧ (kriging_rss testLib locusC (1 / 1000) none (some specSmall)).2.eigvecs
            = specSmall.eigvecs)) :=
  ⟨by decide,
    c10_spectrum_mutated_in_place testLib locusC (1 / 1000) "null-mle" none specSmall
      (by decide)⟩

/-- C1: with a precomputed `s` and a precomputed eigen-spectrum, `condmean[i]`
and `condvar[i]` do not depend on the `i`-th beta/se ratio: two loci agreeing
in sample size and in every z-score except the `i`-th produce the same
`condmean[i]` and `condvar[i]` (the conditional mean at `i` reads only the
off-`i` precision row entries against the transformed z-scores at `j ≠ i`,
and each transformed z-score depends only on its own raw ratio). -/
theorem c1_condmean_leave_one_out (lib : NumLib) {p : ℕ} (locus locus' : Locus p)
    (r_tol s : ℚ) (E : Spectrum p) (i : Fin p)
    (hn : locus.sample_size = locus'.sample_size)
    (hz : ∀ j, j ≠ i → zscores locus j = zscores locus' j) :
    krig_condmean? (kriging_rss lib locus r_tol (some s) (some E)) i =
      krig_condmean? (kriging_rss lib locus' r_tol (some s) (some E)) i
    ∧ krig_condvar? (kriging_rss lib locus r_tol (some s) (some E)) i =
      krig_condvar? (kriging_rss lib locus' r_tol (some s) (some E)) i := by
  simp only [kriging_rss, kriging_with, krig_result, krig_condmean?, krig_condvar?]
  by_cases hle : locus.sample_size ≤ 1
  · rw [if_pos hle, if_pos (hn ▸ hle)]
    exact ⟨rfl, rfl⟩
  · rw [if_neg hle, if_neg (hn ▸ hle)]
    have hzt : ∀ j, j ≠ i →
        ztransform locus.sample_size (zscores locus) j =
          ztransform locus'.sample_size (zscores locus') j := by
      intro j hj
      unfold ztransform
      rw [hn, hz j hj]
    constructor
    · simp only [Except.toOption, Option.map]
      congr 1
      have h₁ : (∑ j ∈ Finset.univ.filter fun j => j < i,
            (fun a b => ∑ k, krig_eigvecs E a k * (krig_eigvecs E b k
              * dinv_of s (krig_eigvals r_tol E k))) i j
              * ztransform locus.sample_size (zscores locus) j) =
          (∑ j ∈ Finset.univ.filter fun j => j < i,
            (fun a b => ∑ k, krig_eigvecs E a k * (krig_eigvecs E b k
              * dinv_of s (krig_eigvals r_tol E k))) i j
              * ztransform locus'.sample_size (zscores locus') j) := by
        refine Finset.sum_congr rfl fun j hj => ?_
        rw [hzt j (ne_of_lt (Finset.mem_filter.mp hj).2)]
      have h₂ : (∑ j ∈ Finset.univ.filter fun j => i < j,
            (fun a b => ∑ k, krig_eigvecs E a k * (krig_eigvecs E b k
              * dinv_of s (krig_eigvals r_tol E k))) i j
              * ztransform locus.sample_size (zscores locus) j) =
          (∑ j ∈ Finset.univ.filter fun j => i < j,
            (fun a b => ∑ k, krig_eigvecs E a k * (krig_eigvecs E b k
              * dinv_of s (krig_eigvals r_tol E k))) i j
              * ztransform locus'.sample_size (zscores locus') j) := by
        refine Finset.sum_congr rfl fun j hj => ?_
        rw [hzt j (ne_of_gt (Finset.mem_filter.mp hj).2)]
      rw [h₁, h₂]
    · exact rfl

/-- Witness for C1: `locusA` and `locusA'` differ only in the first beta/se
ratio; the theorem applies at `i = 0`. -/
theorem c1_witness :
    locusA.sample_size = locusA'.sample_size ∧
      (∀ j, j ≠ (0 : Fin 2) → zscores locusA j = zscores locusA' j) ∧
      (krig_condmean? (kriging_rss testLib locusA (1 / 1000) (some 0) (some specA)) 0 =
          krig_condmean? (kriging_rss testLib locusA' (1 / 1000) (some 0) (some specA)) 0
        ∧ krig_condvar? (kriging_rss testLib locusA (1 / 1000) (some 0) (some specA)) 0 =
          krig_condvar? (kriging_rss testLib locusA' (1 / 1000) (some 0) (some specA)) 0) :=
  ⟨by decide, by decide,
    c1_condmean_leave_one_out testLib locusA locusA' (1 / 1000) 0 specA 0 (by decide)
      (by decide)⟩

/-- C8 (amended): calling `kriging_rss` a second time on the spectrum left
behind by a first call (the caller's mutated dictionary) reproduces the first
call exactly when `s` is supplied (any `r_tol`), or when `s = None` with
`r_tol` at most the inner estimation default `10⁻⁸` (in particular under the
default `r_tol = 10⁻⁸`): then the clamp idempotence makes the second call see
equivalent inputs.  With `s = None` and `r_tol > 10⁻⁸` the property fails —
see the counterexample. -/
theorem c8_kriging_idempotent (lib : NumLib) {p : ℕ} (locus : Locus p) (r_tol : ℚ)
    (s? : Option ℚ) (E : Spectrum p)
    (h : (∃ s, s? = some s) ∨ r_tol ≤ 1 / 100000000) :
    kriging_rss lib locus r_tol s? (some ((kriging_rss lib locus r_tol s? (some E)).2)) =
      kriging_rss lib locus r_tol s? (some E) := by
  rcases s? with _ | s
  · -- s = None: the inner estimate clamps at 1e-8 first
    have hr : r_tol ≤ 1 / 100000000 := by
      rcases h with ⟨s, hs⟩ | hr
      · exact absurd hs (by simp)
      · exact hr
    by_cases hn : locus.sample_size ≤ 1
    · -- the inner estimate raises; only its own clamp happened
      have hres : ∀ (F : Spectrum p),
          (estimate_s_rss lib locus (1 / 100000000) "null-mle" (some F)).1 =
            .error "n must be greater than 1" := fun F => by
        simp only [estimate_s_rss]
        rw [if_pos hn]
      simp only [kriging_rss, hres, estimate_s_rss_snd]
      rw [show clamp (1 / 100000000)
          ((⟨clamp (1 / 100000000) E.eigvals, E.eigvecs⟩ : Spectrum p).eigvals) =
          clamp (1 / 100000000) E.eigvals from clamp_idem _ _]
    · have hres : ∀ (F : Spectrum p),
          (estimate_s_rss lib locus (1 / 100000000) "null-mle" (some F)).1 =
            .ok (lib.null_mle_s p
              (fun k => ∑ a, F.eigvecs a k * ztransform locus.sample_size (zscores locus) a)
              (clamp (1 / 100000000) F.eigvals)) := fun F => by
        simp only [estimate_s_rss, reduceIte]
        rw [if_neg hn]
      -- the spectrum after the first call equals the estimate's own clamp
      have hstate : (kriging_rss lib locus r_tol none (some E)).2 =
          (⟨clamp (1 / 100000000) E.eigvals, E.eigvecs⟩ : Spectrum p) := by
        simp only [kriging_rss, hres, estimate_s_rss_snd, kriging_with_snd]
        refine Spectrum.ext ?_ rfl
        rw [krig_spectrum_after_eigvals]
        exact clamp_clamp hr _
      rw [hstate]
      simp only [kriging_rss, hres, estimate_s_rss_snd]
      rw [show clamp (1 / 100000000)
          ((⟨clamp (1 / 100000000) E.eigvals, E.eigvecs⟩ : Spectrum p).eigvals) =
          clamp (1 / 100000000) E.eigvals from clamp_idem _ _]
  · -- precomputed s: the body depends on the spectrum only through the clamp
    have hstate : (kriging_rss lib locus r_tol (some s) (some E)).2 =
        krig_spectrum_after r_tol E := rfl
    rw [hstate]
    show kriging_with locus r_tol s (krig_spectrum_after r_tol E) =
      kriging_with locus r_tol s E
    apply kriging_with_congr
    · rw [krig_spectrum_after_eigvals]
      exact clamp_idem _ _
    · rfl

/-- Witness for C8: the two-variant locus with its identity spectrum and a
precomputed `s = 0`. -/
theorem c8_witness :
    ((∃ s, (some (0 : ℚ)) = some s) ∨ (1 / 1000 : ℚ) ≤ 1 / 100000000) ∧
      kriging_rss testLib locusA (1 / 1000) (some 0)
          (some ((kriging_rss testLib locusA (1 / 1000) (some 0) (some specA)).2)) =
        kriging_rss testLib locusA (1 / 1000) (some 0) (some specA) :=
  ⟨Or.inl ⟨0, rfl⟩,
    c8_kriging_idempotent testLib locusA (1 / 1000) (some 0) specA (Or.inl ⟨0, rfl⟩)⟩

/-- Counterexample for C8 as stated (unconditionally): with `s = None` and
`r_tol = 10⁻³ > 10⁻⁸`, the eigenvalue `10⁻⁶ ∈ [10⁻⁸, r_tol)` of `specSmall`
survives the first call's inner clamp at `10⁻⁸` but is zeroed by its
kriging-side clamp at `r_tol`, so the second call's inner s-estimation sees a
different eigenvalue array (`[0]` instead of `[10⁻⁶]`), returns a different
`s` (with `sensLib`'s eigenvalue-sensitive search: `1/2` instead of `1/4`),
and the conditional variance of the only variant differs between the two
calls (`1/2` versus `1/4`) — not bit-identical. -/
theorem c8_counterexample :
    krig_condvar? (kriging_rss sensLib locusC (1 / 1000) none (some specSmall)) 0
      = some (1 / 4)
    ∧ krig_condvar? (kriging_rss sensLib locusC (1 / 1000) none
        (some ((kriging_rss sensLib locusC (1 / 1000) none (some specSmall)).2))) 0
      = some (1 / 2)
    ∧ some ((1 : ℚ) / 4) ≠ some ((1 : ℚ) / 2) :=
  ⟨by decide, by decide, by decide⟩

/-- Bernoulli bound making `⌈25·a⌉` enough fuel for the grid-exponent
search: `a ≤ 0.8 · 1.05 ^ ⌈25 a⌉`. -/
theorem le_npoint_bound (a : ℚ) : a ≤ 0.8 * 1.05 ^ (⌈(25 : ℚ) * a⌉₊) := by
  rcases le_or_lt a (0.8 : ℚ) with ha | ha
  · calc a ≤ 0.8 := ha
      _ = 0.8 * 1 := (mul_one _).symm
      _ ≤ 0.8 * 1.05 ^ (⌈(25 : ℚ) * a⌉₊) := by
        refine mul_le_mul_of_nonneg_left ?_ (by norm_num)
        exact one_le_pow₀ (by norm_num)
  · have h0 : (0 : ℚ) ≤ 25 * a := by nlinarith
    have hn : (25 : ℚ) * a ≤ (⌈(25 : ℚ) * a⌉₊ : ℚ) := Nat.le_ceil _
    have hbern : 1 + (⌈(25 : ℚ) * a⌉₊ : ℚ) * (1 / 20) ≤ (1 + 1 / 20) ^ (⌈(25 : ℚ) * a⌉₊) :=
      one_add_mul_le_pow (by norm_num) _
    have h105 : ((1 : ℚ) + 1 / 20) = 1.05 := by norm_num
    rw [h105] at hbern
    have hpow : (0.8 : ℚ) * (1 + (⌈(25 : ℚ) * a⌉₊ : ℚ) * (1 / 20)) ≤
        0.8 * 1.05 ^ (⌈(25 : ℚ) * a⌉₊) :=
      mul_le_mul_of_nonneg_left hbern (by norm_num)
    nlinarith

/-- The grid exponent really satisfies its defining inequality:
`a_max ≤ 0.8 · 1.05 ^ npoint_raw a_max`. -/
theorem npoint_raw_spec (a : ℚ) : a ≤ 0.8 * 1.05 ^ npoint_raw a := by
  unfold npoint_raw
  have hmem : ⌈(25 : ℚ) * a⌉₊ ∈ List.range (⌈(25 : ℚ) * a⌉₊ + 1) :=
    List.mem_range.mpr (Nat.lt_succ_self _)
  cases hfind : (List.range (⌈(25 : ℚ) * a⌉₊ + 1)).find? fun nn =>
      decide (a ≤ (0.8 : ℚ) * (1.05 : ℚ) ^ nn) with
  | none =>
    exfalso
    have hno := List.find?_eq_none.mp hfind _ hmem
    simp only [decide_eq_true_eq] at hno
    exact hno (le_npoint_bound a)
  | some k =>
    have hk := List.find?_some hfind
    simpa using hk

/-- The grid has `min(npoint_raw, p−1) + 1` points. -/
theorem a_grid_of_length (p : ℕ) (a_max : ℚ) :
    (a_grid_of p a_max).length = min (npoint_raw a_max) (p - 1) + 1 := by
  simp [a_grid_of]

/-- The grid's last point is `a_max` itself (`1.05⁰ · a_max`). -/
theorem a_grid_of_last (p : ℕ) (a_max : ℚ) :
    (a_grid_of p a_max).getLast? = some a_max := by
  unfold a_grid_of
  rw [List.getLast?_eq_getElem?]
  simp only [List.length_map, List.length_range, Nat.add_sub_cancel, List.getElem?_map,
    List.getElem?_range (Nat.lt_succ_self _), Option.map_some']
  rw [sub_self, zpow_zero, one_mul]

/-- Consecutive grid points are in ratio `1.05`. -/
theorem a_grid_of_ratio (p : ℕ) (a_max : ℚ) (j : ℕ)
    (hj : j + 1 < (a_grid_of p a_max).length) :
    (a_grid_of p a_max)[j + 1]? = ((a_grid_of p a_max)[j]?).map fun x => (1.05 : ℚ) * x := by
  rw [a_grid_of_length] at hj
  unfold a_grid_of
  rw [List.getElem?_map, List.getElem?_map, List.getElem?_range (by omega),
    List.getElem?_range (by omega)]
  simp only [Option.map_some']
  congr 1
  set m := min (npoint_raw a_max) (p - 1) with hm
  have hcast : ((j + 1 : ℕ) : ℤ) - (m : ℤ) = ((j : ℕ) : ℤ) - (m : ℤ) + 1 := by
    push_cast
    ring
  rw [hcast, zpow_add_one₀ (by norm_num : (1.05 : ℚ) ≠ 0)]
  ring

/-- When the variant-count cap does not bite, the smallest grid point is at
most the nominal lower bound `0.8`. -/
theorem a_grid_of_head_le (p : ℕ) (a_max : ℚ) (hnc : npoint_raw a_max ≤ p - 1) :
    ∀ x ∈ (a_grid_of p a_max).head?, x ≤ 0.8 := by
  intro x hx
  unfold a_grid_of at hx
  rw [min_eq_left hnc, List.head?_map, List.head?_range] at hx
  simp only [Nat.succ_ne_zero, if_false, Option.map_some', Option.mem_def,
    Option.some.injEq] at hx
  subst hx
  have hspec := npoint_raw_spec a_max
  have hpos : (0 : ℚ) < (1.05 : ℚ) ^ (-(npoint_raw a_max : ℤ)) :=
    zpow_pos (by norm_num) _
  have hmul : (1.05 : ℚ) ^ (-(npoint_raw a_max : ℤ)) * a_max ≤
      (1.05 : ℚ) ^ (-(npoint_raw a_max : ℤ)) * (0.8 * 1.05 ^ npoint_raw a_max) :=
    mul_le_mul_of_nonneg_left hspec hpos.le
  have hcancel : (1.05 : ℚ) ^ (-(npoint_raw a_max : ℤ)) * (1.05 : ℚ) ^ (npoint_raw a_max : ℤ)
      = 1 := by
    rw [← zpow_add₀ (by norm_num : (1.05 : ℚ) ≠ 0)]
    simp
  calc (1.05 : ℚ) ^ ((0 : ℕ) - (npoint_raw a_max : ℤ)) * a_max
      = (1.05 : ℚ) ^ (-(npoint_raw a_max : ℤ)) * a_max := by norm_num
    _ ≤ (1.05 : ℚ) ^ (-(npoint_raw a_max : ℤ)) * (0.8 * 1.05 ^ npoint_raw a_max) := hmul
    _ = 0.8 * ((1.05 : ℚ) ^ (-(npoint_raw a_max : ℤ))
          * (1.05 : ℚ) ^ (npoint_raw a_max : ℤ)) := by
        rw [zpow_natCast]
        ring
    _ = 0.8 := by rw [hcancel, mul_one]

/-- C5 (amended): in `kriging_rss` the grid's top point is
`a_max = 2` (or `2·√(max zsd²)` when the max squared standardized difference
reaches `1`), the step ratio is `1.05`, and the grid has
`min(npoint_raw, p−1) + 1` points — at most `p`, the variant count (`npoint`,
the exponent count, is what is capped at `p − 1`; the point count can equal
`p`, not `p − 1`).  When the cap does not bite, the smallest grid point is at
most the nominal lower bound `0.8`. -/
theorem c5_grid_shape (lib : NumLib) {p : ℕ} (locus : Locus p) (r_tol s : ℚ)
    (E : Spectrum p) (hp : 0 < p)
    (hok : (kriging_rss lib locus r_tol (some s) (some E)).1.isOk = true) :
    krig_grid (kriging_rss lib locus r_tol (some s) (some E)) =
      a_grid_of p (a_max_of (krig_zsd (kriging_rss lib locus r_tol (some s) (some E))))
    ∧ (krig_grid (kriging_rss lib locus r_tol (some s) (some E))).length =
      min (npoint_raw (a_max_of (krig_zsd (kriging_rss lib locus r_tol (some s) (some E)))))
        (p - 1) + 1
    ∧ (krig_grid (kriging_rss lib locus r_tol (some s) (some E))).length ≤ p
    ∧ (krig_grid (kriging_rss lib locus r_tol (some s) (some E))).getLast? =
      some (a_max_of (krig_zsd (kriging_rss lib locus r_tol (some s) (some E))))
    ∧ (∀ j, j + 1 < (krig_grid (kriging_rss lib locus r_tol (some s) (some E))).length →
        (krig_grid (kriging_rss lib locus r_tol (some s) (some E)))[j + 1]? =
          ((krig_grid (kriging_rss lib locus r_tol (some s) (some E)))[j]?).map
            fun x => (1.05 : ℚ) * x)
    ∧ (npoint_raw (a_max_of (krig_zsd (kriging_rss lib locus r_tol (some s) (some E)))) ≤ p - 1 →
        ∀ x ∈ (krig_grid (kriging_rss lib locus r_tol (some s) (some E))).head?, x ≤ 0.8) := by
  by_cases hn : locus.sample_size ≤ 1
  · exfalso
    have herr : (kriging_rss lib locus r_tol (some s) (some E)).1 =
        .error "n must be greater than 1" := by
      show (kriging_with locus r_tol s E).1 = _
      simp only [kriging_with]
      rw [if_pos hn]
    rw [herr] at hok
    simp [Except.isOk, Except.toBool] at hok
  · have h1 : (kriging_rss lib locus r_tol (some s) (some E)).1 =
        .ok (krig_result locus r_tol s E) := by
      show (kriging_with locus r_tol s E).1 = _
      simp only [kriging_with]
      rw [if_neg hn]
    have hgrid : krig_grid (kriging_rss lib locus r_tol (some s) (some E)) =
        (krig_result locus r_tol s E).a_grid := by
      simp only [krig_grid, h1]
    have hzsd : krig_zsd (kriging_rss lib locus r_tol (some s) (some E)) =
        (krig_result locus r_tol s E).z_std_diff := by
      simp only [krig_zsd, h1]
    have hfield : (krig_result locus r_tol s E).a_grid =
        a_grid_of p (a_max_of (krig_result locus r_tol s E).z_std_diff) := rfl
    refine ⟨by rw [hgrid, hzsd, hfield], ?_, ?_, ?_, ?_, ?_⟩
    · rw [hgrid, hzsd, hfield, a_grid_of_length]
    · rw [hgrid, hfield, a_grid_of_length]
      have := Nat.min_le_right (npoint_raw (a_max_of (krig_result locus r_tol s E).z_std_diff))
        (p - 1)
      omega
    · rw [hgrid, hzsd, hfield]
      exact a_grid_of_last _ _
    · intro j hj
      rw [hgrid, hfield] at hj ⊢
      exact a_grid_of_ratio _ _ j hj
    · intro hnc
      rw [hzsd] at hnc
      rw [hgrid, hfield]
      exact a_grid_of_head_le _ _ hnc

/-- Witness for C5 (amended): the one-variant locus with trivial spectrum
(where the cap bites: `npoint = 0`, single grid point `2 > 0.8`). -/
theorem c5_witness :
    0 < 1 ∧ (kriging_rss testLib locusC (1 / 1000) (some 0) (some specC)).1.isOk = true ∧
      krig_grid (kriging_rss testLib locusC (1 / 1000) (some 0) (some specC)) =
        a_grid_of 1 (a_max_of (krig_zsd (kriging_rss testLib locusC (1 / 1000) (some 0)
          (some specC)))) :=
  ⟨by decide, by decide,
    (c5_grid_shape testLib locusC (1 / 1000) 0 specC (by decide) (by decide)).1⟩

/-- Counterexample for C5 as stated: on a single-variant locus the grid has
one point, which exceeds `variant count − 1 = 0` — the cap bounds the
exponent count, not the number of grid points. -/
theorem c5_counterexample :
    krig_grid (kriging_rss testLib locusC (1 / 1000) (some 0) (some specC)) = [2]
    ∧ ¬ ((krig_grid (kriging_rss testLib locusC (1 / 1000) (some 0) (some specC))).length
        ≤ 1 - 1) :=
  ⟨by decide, by decide⟩

/-- C6 (amended): in `compute_dentist_s`, a non-lead variant whose z-score is
exactly `r · z_lead` gets `t_dentist_s = 0` whenever `r² ≠ 1`; at `r = ±1`
the denominator `1 − r²` is an exact zero, so the perfectly-correlated
equal-z case of the original claim produces NaN (`0/0`), not `0` — see the
counterexample. -/
theorem c6_dentist_zero_when_consistent (lib : NumLib) {p : ℕ} (locus : Locus p)
    (lead j : Fin p)
    (hlead : (List.finRange p).argmin locus.pval = some lead)
    (hj : j ≠ lead)
    (hz : locus.beta j / locus.se j = locus.r lead j * (locus.beta lead / locus.se lead))
    (hr : locus.r lead j ^ 2 ≠ 1) :
    ∃ rows, compute_dentist_s lib locus = .ok rows ∧
      rows[(j : ℕ)]? = some ⟨locus.snpid j, FV.num 0, lib.chi2_logsf (FV.num 0)⟩ := by
  have hden : 1 - locus.r lead j ^ 2 ≠ 0 := sub_ne_zero.mpr fun h => hr h.symm
  have ht : dentist_t locus lead j = FV.num 0 := by
    simp only [dentist_t]
    rw [hz]
    have hnum : (locus.r lead j * (locus.beta lead / locus.se lead)
        - locus.r lead j * (locus.beta lead / locus.se lead)) ^ 2 = 0 := by ring
    rw [hnum]
    unfold fdiv
    rw [if_neg hden, zero_div]
    simp [FV.isNeg]
  refine ⟨(List.finRange p).map fun j' =>
      (⟨locus.snpid j', if j' = lead then FV.nan else dentist_t locus lead j',
        lib.chi2_logsf (if j' = lead then FV.nan else dentist_t locus lead j')⟩ : DentistRow),
    ?_, ?_⟩
  · unfold compute_dentist_s
    rw [hlead]
  · rw [List.getElem?_map]
    have hfr : (List.finRange p)[(j : ℕ)]? = some j := by
      have hlt : (j : ℕ) < (List.finRange p).length := by
        rw [List.length_finRange]
        exact j.isLt
      rw [List.getElem?_eq_getElem hlt]
      congr 1
      exact List.getElem_finRange _ _
    rw [hfr, Option.map_some']
    rw [if_neg hj, ht]

/-- Witness for C6 (amended): `locusHalf` — lead z `2`, `r = 1/2`, second
z-score exactly `1 = r · z_lead`. -/
theorem c6_witness :
    (List.finRange 2).argmin locusHalf.pval = some 0 ∧ (1 : Fin 2) ≠ 0 ∧
      locusHalf.beta 1 / locusHalf.se 1
        = locusHalf.r 0 1 * (locusHalf.beta 0 / locusHalf.se 0) ∧
      locusHalf.r 0 1 ^ 2 ≠ 1 ∧
      (∃ rows, compute_dentist_s testLib locusHalf = .ok rows ∧
        rows[(1 : ℕ)]? = some ⟨locusHalf.snpid 1, FV.num 0, testLib.chi2_logsf (FV.num 0)⟩) :=
  ⟨by decide, by decide, by decide, by decide,
    c6_dentist_zero_when_consistent testLib locusHalf 0 1 (by decide) (by decide) (by decide)
      (by decide)⟩

/-- Counterexample for C6 as stated: in `locusDup` the second variant has
`r = 1` to the lead and an equal z-score, and its Dentist-S statistic is NaN
(the exact `0/0`), not `0`. -/
theorem c6_counterexample :
    (compute_dentist_s testLib locusDup).toOption.map (fun rows => rows.map
      fun row => row.t_dentist_s) = some [FV.nan, FV.nan]
    ∧ FV.nan ≠ FV.num 0 :=
  ⟨by decide, by decide⟩

/-- C9: the dictionary returned by a successful `locus_qc` run carries the
heterogeneity table (`"cochran_q"`) and the missingness table
(`"snp_missingness"`) exactly when more than one locus is present, while the
five per-locus tables are always present. -/
theorem c9_qc_keys (lib : NumLib) (loci : List BLocus) (r_tol : ℚ) (method : String)
    (hok : (locus_qc lib loci r_tol method).isOk = true) :
    ("cochran_q" ∈ qc_keys (locus_qc lib loci r_tol method) ↔ 1 < loci.length)
    ∧ ("snp_missingness" ∈ qc_keys (locus_qc lib loci r_tol method) ↔ 1 < loci.length)
    ∧ "expected_z" ∈ qc_keys (locus_qc lib loci r_tol method)
    ∧ "dentist_s" ∈ qc_keys (locus_qc lib loci r_tol method)
    ∧ "compare_maf" ∈ qc_keys (locus_qc lib loci r_tol method)
    ∧ "ld_4th_moment" ∈ qc_keys (locus_qc lib loci r_tol method)
    ∧ "ld_decay" ∈ qc_keys (locus_qc lib loci r_tol method) := by
  cases loci with
  | nil =>
    rw [show locus_qc lib [] r_tol method = .error "No objects to concatenate" from rfl] at hok
    simp [Except.isOk, Except.toBool] at hok
  | cons l ls =>
    cases hper : (l :: ls).mapM (locus_qc_locus lib r_tol method) with
    | error e =>
      rw [show locus_qc lib (l :: ls) r_tol method =
        ((l :: ls).mapM (locus_qc_locus lib r_tol method)).bind
          (fun per => pure
            ([("expected_z", QCTable.expectedZ ((per.map fun t => t.1).flatten)),
              ("dentist_s", QCTable.dentistS ((per.map fun t => t.2.1).flatten)),
              ("compare_maf", QCTable.compareMaf ((per.map fun t => t.2.2).flatten)),
              ("ld_4th_moment", QCTable.ld4thMoment (ld_4th_moment (l :: ls))),
              ("ld_decay", QCTable.ldDecay (((l :: ls).map
                fun lo => ld_decay_locus lib lo.locus).flatten))]
              ++ if 1 < (l :: ls).length then
                  [("cochran_q", QCTable.cochranQ (cochran_q lib (l :: ls))),
                   ("snp_missingness", QCTable.snpMissingness (snp_missingness (l :: ls)))]
                else [])) from rfl, hper] at hok
      simp [Except.bind, Except.isOk, Except.toBool] at hok
    | ok per =>
      have hq : locus_qc lib (l :: ls) r_tol method = .ok
          (([("expected_z", QCTable.expectedZ ((per.map fun t => t.1).flatten)),
            ("dentist_s", QCTable.dentistS ((per.map fun t => t.2.1).flatten)),
            ("compare_maf", QCTable.compareMaf ((per.map fun t => t.2.2).flatten)),
            ("ld_4th_moment", QCTable.ld4thMoment (ld_4th_moment (l :: ls))),
            ("ld_decay", QCTable.ldDecay (((l :: ls).map
              fun lo => ld_decay_locus lib lo.locus).flatten))]
            ++ if 1 < (l :: ls).length then
                [("cochran_q", QCTable.cochranQ (cochran_q lib (l :: ls))),
                 ("snp_missingness", QCTable.snpMissingness (snp_missingness (l :: ls)))]
              else [])) := by
        show ((l :: ls).mapM (locus_qc_locus lib r_tol method)).bind _ = _
        rw [hper]
        rfl
      by_cases hlen : 1 < (l :: ls).length
      · rw [if_pos hlen] at hq
        have hlen' : 0 < ls.length := by simpa using hlen
        refine ⟨?_, ?_, ?_, ?_, ?_, ?_, ?_⟩ <;> rw [hq] <;> simp [qc_keys, hlen']
      · rw [if_neg hlen] at hq
        have h1 : ¬ 1 < ls.length + 1 := by simpa using hlen
        have hlen' : ls.length = 0 := by omega
        refine ⟨?_, ?_, ?_, ?_, ?_, ?_, ?_⟩ <;> rw [hq] <;> simp [qc_keys, hlen']

/-- Witness for C9: a successful single-locus run has all five per-locus
tables and no heterogeneity or missingness table. -/
theorem c9_witness :
    (locus_qc testLib [⟨2, locusA⟩] (1 / 1000) "null-mle").isOk = true ∧
      "expected_z" ∈ qc_keys (locus_qc testLib [⟨2, locusA⟩] (1 / 1000) "null-mle") ∧
      ¬ "cochran_q" ∈ qc_keys (locus_qc testLib [⟨2, locusA⟩] (1 / 1000) "null-mle") := by
  have h := c9_qc_keys testLib [⟨2, locusA⟩] (1 / 1000) "null-mle" (by decide)
  exact ⟨by decide, h.2.2.1, fun hc => absurd (h.1.mp hc) (by decide)⟩

end Credtools
